import Mathlib

/-!
Verification of the AI Booking Assistant against its specification.

The repository ships a single UI boundary file (main.py).  Its pure
content (status-message bookkeeping and the chat-page control flow around
the turn handler and the persistence/notification collaborators) is
embedded directly.  The core modules it imports (chat_logic, rag_pipeline,
tools) are not part of the source tree, so the orchestrator and the
retrieval pipeline are modelled from the specification, as marked on each
definition.
-/

/-- Levels and texts pushed via push_status in main.py; an entry of the
session status-message list. -/
structure StatusItem where
  level : String
  message : String
deriving DecidableEq, Repr

/-- Embeds main.py push_status: append the new entry, then keep only
the last ten entries of the list (the Python slice with negative index). -/
def takeLast {α : Type} (n : Nat) (l : List α) : List α :=
  l.drop (l.length - n)

def push_status (msgs : List StatusItem) (level message : String) : List StatusItem :=
  takeLast 10 (msgs ++ [⟨level, message⟩])

/-- Widget kind chosen by render_status_messages for a status level. -/
inductive Widget where
  | success
  | warning
  | error
  | info
deriving DecidableEq, Repr

def widgetFor (level : String) : Widget :=
  if level = "success" then Widget.success
  else if level = "warning" then Widget.warning
  else if level = "error" then Widget.error
  else Widget.info

/-- Embeds main.py render_status_messages: walk the list, skip entries
with an empty message, and emit one widget per remaining entry. -/
def render_status_messages : List StatusItem → List (Widget × String)
  | [] => []
  | i :: rest =>
      if i.message.isEmpty then render_status_messages rest
      else (widgetFor i.level, i.message) :: render_status_messages rest

/-- Finalized booking record handed to the collaborators (the six
attributes read off booking_payload in main.py). -/
structure BookingRecord where
  name : String
  email : String
  phone : String
  booking_type : String
  date : String
  time : String
deriving DecidableEq, Repr

/-- Result dictionary of booking_persistence_tool. -/
structure PersistResult where
  success : Bool
  booking_id : Nat
deriving DecidableEq, Repr

/-- Result dictionary of email_tool. -/
structure EmailResult where
  success : Bool
deriving DecidableEq, Repr

/-- Externally visible calls made during one render pass of the chat page. -/
inductive UIEffect where
  | ingestCall
  | handleCall (text : String)
  | persistCall (b : BookingRecord)
  | emailCall (recipient subject body : String)
deriving DecidableEq, Repr

/-- Return value of the abstract turn handler at the boundary: the
assistant reply, the optional completed booking, and the updated
conversation state of the handler. -/
structure TurnOut (σ : Type) where
  reply : String
  payload : Option BookingRecord
  state : σ

/-- Output of one render pass of the chat page: the external calls made,
the updated status list, the conversation state, and whether a rerun was
forced. -/
structure ChatPageOut (σ : Type) where
  effects : List UIEffect
  status : List StatusItem
  conv : σ
  rerun : Bool

/-- Embeds the sidebar upload branch of main.py: no upload does nothing;
an upload calls ingest_pdfs and pushes a success or error status. -/
def ingestPhase (ingestResult : Option (Except String Nat))
    (status : List StatusItem) : List UIEffect × List StatusItem :=
  match ingestResult with
  | none => ([], status)
  | some (Except.ok n) =>
      ([UIEffect.ingestCall], push_status status "success" s!"Ingested {n} chunks from PDFs.")
  | some (Except.error e) =>
      ([UIEffect.ingestCall], push_status status "error" s!"PDF ingestion failed: {e}")

def bookingSubject (bid : Nat) : String := s!"Booking Confirmation (ID: {bid})"

def bookingBody (b : BookingRecord) : String :=
  let nm := b.name
  let em := b.email
  let ph := b.phone
  let ty := b.booking_type
  let da := b.date
  let ti := b.time
  "Your booking is confirmed.\n\n" ++
  s!"Name: {nm}\n" ++
  s!"Email: {em}\n" ++
  s!"Phone: {ph}\n" ++
  s!"Type: {ty}\n" ++
  s!"Date: {da}\n" ++
  s!"Time: {ti}\n\n" ++
  "Thank you."

/-- Embeds the chat-page control flow of main.py after the sidebar:
render status, read the chat input, return early when it is empty,
otherwise run the turn handler and, when a booking payload is returned,
call the persistence collaborator, then the email collaborator only on
persistence success, push the matching statuses, and force a rerun. -/
def chat_page {σ : Type}
    (handle : String → σ → TurnOut σ)
    (persistTool : BookingRecord → PersistResult)
    (emailTool : String → String → String → EmailResult)
    (ingestResult : Option (Except String Nat))
    (userText : Option String)
    (status : List StatusItem) (conv : σ) : ChatPageOut σ :=
  let ip := ingestPhase ingestResult status
  match userText with
  | none => { effects := ip.1, status := ip.2, conv := conv, rerun := false }
  | some t =>
      if t.isEmpty then { effects := ip.1, status := ip.2, conv := conv, rerun := false }
      else
        let tr := handle t conv
        match tr.payload with
        | none =>
            { effects := ip.1 ++ [UIEffect.handleCall t], status := ip.2,
              conv := tr.state, rerun := false }
        | some b =>
            let pr := persistTool b
            if pr.success then
              let bid := pr.booking_id
              let st2 := push_status ip.2 "success" s!"Booking saved (ID={bid})."
              let er := emailTool b.email (bookingSubject bid) (bookingBody b)
              let st3 :=
                if er.success then push_status st2 "success" "Confirmation email sent."
                else push_status st2 "warning" "Booking saved but email failed."
              { effects := ip.1 ++ [UIEffect.handleCall t, UIEffect.persistCall b,
                  UIEffect.emailCall b.email (bookingSubject bid) (bookingBody b)],
                status := st3, conv := tr.state, rerun := true }
            else
              { effects := ip.1 ++ [UIEffect.handleCall t, UIEffect.persistCall b],
                status := push_status ip.2 "error" "Booking confirmed but DB save failed.",
                conv := tr.state, rerun := true }

/-- Empty chat input as main.py tests it (None or the empty string are
both falsy). -/
def isEmptyInput : Option String → Bool
  | none => true
  | some t => t.isEmpty

def persistCount (effs : List UIEffect) : Nat :=
  effs.countP (fun e => match e with | UIEffect.persistCall _ => true | _ => false)

/-- Modelled from the spec: roles of a conversation Message (section 3);
the chat_logic module holding the conversation state is not in the
source tree. -/
inductive Role where
  | user
  | assistant
deriving DecidableEq, Repr

/-- Modelled from the spec: a Message of the append-only history. -/
structure Message where
  role : Role
  content : String
deriving DecidableEq, Repr

/-- Modelled from the spec: BookingSlots, each field optional until
filled (section 3). -/
structure BookingSlots where
  name : Option String := none
  email : Option String := none
  phone : Option String := none
  booking_type : Option String := none
  date : Option String := none
  time : Option String := none
deriving DecidableEq, Repr

def emptySlots : BookingSlots := {}

/-- Modelled from the spec: the two Orchestrator states (section 4.3). -/
inductive OState where
  | IDLE
  | COLLECTING_BOOKING
deriving DecidableEq, Repr

/-- Modelled from the spec: ConversationState with history, the live
BookingSlots and the idempotence marker (section 3). -/
structure ConvState where
  history : List Message := []
  pending_booking : Option BookingSlots := none
  last_emitted_booking_id : Option Nat := none
  ostate : OState := OState.IDLE
deriving DecidableEq, Repr

def initialConv : ConvState := {}

/-- Modelled from the spec: the three classification outcomes
(section 4.3 step 2). -/
inductive Intent where
  | start_booking
  | continue_booking
  | ask_question
deriving DecidableEq, Repr

/-- Modelled from the spec: the narrow interface behind which the
model-assisted classification, extraction, reply generation and
date/time parsing sit (sections 4.3 and 9), so the state machine is
deterministic for any scripted stand-in. -/
structure ModelOracle where
  classify : OState → String → Intent
  extract : String → BookingSlots
  askReply : String → String
  confirmReply : BookingRecord → String
  dateParseable : String → Bool
  timeParseable : String → Bool

/-- Splits a character list at a separator, the groups in order. -/
def splitOnChar (c : Char) : List Char → List (List Char)
  | [] => [[]]
  | a :: as =>
      let r := splitOnChar c as
      if a = c then [] :: r
      else
        match r with
        | [] => [[a]]
        | g :: gs => (a :: g) :: gs

/-- Modelled from the spec: valid email shape (section 3) — one at-sign
with a non-empty local part and a non-empty dotted domain. -/
def validEmailShape (s : String) : Bool :=
  match splitOnChar '@' s.data with
  | [lp, dp] =>
      !lp.isEmpty && !dp.isEmpty &&
        decide (2 ≤ (splitOnChar '.' dp).length) &&
        (splitOnChar '.' dp).all (fun g => !g.isEmpty)
  | _ => false

def validName (v : String) : Bool := !v.isEmpty

def validPhone (v : String) : Bool := !v.isEmpty

def validBookingType (v : String) : Bool := !v.isEmpty

def validDate (o : ModelOracle) (v : String) : Bool := !v.isEmpty && o.dateParseable v

def validTime (o : ModelOracle) (v : String) : Bool := !v.isEmpty && o.timeParseable v

def optValid (valid : String → Bool) : Option String → Bool
  | none => false
  | some v => valid v

/-- Modelled from the spec: a booking is complete iff all six fields are
filled (section 3). -/
def slotsComplete (b : BookingSlots) : Bool :=
  b.name.isSome && b.email.isSome && b.phone.isSome &&
  b.booking_type.isSome && b.date.isSome && b.time.isSome

def firstMissingField (b : BookingSlots) : Option String :=
  if b.name.isNone then some "name"
  else if b.email.isNone then some "email"
  else if b.phone.isNone then some "phone"
  else if b.booking_type.isNone then some "booking_type"
  else if b.date.isNone then some "date"
  else if b.time.isNone then some "time"
  else none

/-- Modelled from the spec: field-level validation of a complete slot
set, reporting the first invalid field (section 4.3 step 5). -/
def firstInvalidField (o : ModelOracle) (b : BookingSlots) : Option String :=
  if !optValid validName b.name then some "name"
  else if !optValid validEmailShape b.email then some "email"
  else if !optValid validPhone b.phone then some "phone"
  else if !optValid validBookingType b.booking_type then some "booking_type"
  else if !optValid (validDate o) b.date then some "date"
  else if !optValid (validTime o) b.time then some "time"
  else none

/-- Modelled from the spec: merge one extracted field into the live
slots without overwriting an already-valid field with invalid new data
(section 4.3 step 5). -/
def mergeField (valid : String → Bool) (cur new : Option String) : Option String :=
  match new with
  | none => cur
  | some v =>
      match cur with
      | none => some v
      | some c => if valid c && !valid v then some c else some v

def mergeSlots (o : ModelOracle) (cur new : BookingSlots) : BookingSlots :=
  { name := mergeField validName cur.name new.name,
    email := mergeField validEmailShape cur.email new.email,
    phone := mergeField validPhone cur.phone new.phone,
    booking_type := mergeField validBookingType cur.booking_type new.booking_type,
    date := mergeField (validDate o) cur.date new.date,
    time := mergeField (validTime o) cur.time new.time }

/-- Modelled from the spec: freeze complete slots into an immutable
BookingRecord (section 4.3 step 5). -/
def freezeSlots (b : BookingSlots) : BookingRecord :=
  { name := b.name.getD "", email := b.email.getD "", phone := b.phone.getD "",
    booking_type := b.booking_type.getD "", date := b.date.getD "", time := b.time.getD "" }

/-- Fixed template asking for the next missing field (section 4.3 step 4
allows a fixed template). -/
def promptMissingReply (field : String) : String :=
  s!"Please provide your {field}."

/-- Fixed template reporting which field is invalid (section 4.3
step 5). -/
def invalidFieldReply (field : String) : String :=
  s!"The {field} value looks invalid. Please provide a valid {field}."

/-- Result of one turn of the Orchestrator: the reply, the optional
completed booking, and the updated ConversationState. -/
structure OrchResult where
  reply : String
  completed : Option BookingRecord
  conv : ConvState
deriving Repr

/-- Modelled from the spec: the slot-filling branch (section 4.3
steps 4 and 5).  Extracted values are merged into the given slots; an
incomplete set prompts for the next missing field; a complete set is
validated, an invalid field is reported and the flow stays in
COLLECTING_BOOKING, and a valid set is frozen, the pending slots are
cleared, the state returns to IDLE and the record is emitted once. -/
def continueBooking (o : ModelOracle) (conv1 : ConvState) (text : String)
    (slots : BookingSlots) : OrchResult :=
  let merged := mergeSlots o slots (o.extract text)
  if slotsComplete merged then
    match firstInvalidField o merged with
    | some f =>
        let reply := invalidFieldReply f
        { reply := reply, completed := none,
          conv := { conv1 with
                      history := conv1.history ++ [⟨Role.assistant, reply⟩],
                      pending_booking := some merged,
                      ostate := OState.COLLECTING_BOOKING } }
    | none =>
        let record := freezeSlots merged
        let reply := o.confirmReply record
        { reply := reply, completed := some record,
          conv := { conv1 with
                      history := conv1.history ++ [⟨Role.assistant, reply⟩],
                      pending_booking := none, ostate := OState.IDLE,
                      last_emitted_booking_id := some conv1.history.length } }
  else
    let field := (firstMissingField merged).getD "name"
    let reply := promptMissingReply field
    { reply := reply, completed := none,
      conv := { conv1 with
                  history := conv1.history ++ [⟨Role.assistant, reply⟩],
                  pending_booking := some merged,
                  ostate := OState.COLLECTING_BOOKING } }

/-- Modelled from the spec: handle_user_message (section 4.3).  The user
message is appended to history first; the classified intent selects the
branch; every reply is appended to history before being returned.  A
question asked mid-booking leaves the booking flow intact (section 4.3
design rationale: slots are cleared only on completion).  A booking
started by a message is seeded with the slot values extracted from that
same message, so the scripted dialogue of section 8 completes. -/
def handle_user_message (o : ModelOracle) (conv : ConvState) (text : String) : OrchResult :=
  let conv1 : ConvState := { conv with history := conv.history ++ [⟨Role.user, text⟩] }
  match o.classify conv.ostate text with
  | Intent.ask_question =>
      let reply := o.askReply text
      { reply := reply, completed := none,
        conv := { conv1 with history := conv1.history ++ [⟨Role.assistant, reply⟩] } }
  | Intent.start_booking => continueBooking o conv1 text emptySlots
  | Intent.continue_booking =>
      continueBooking o conv1 text (conv1.pending_booking.getD emptySlots)

/-- Runs handle_user_message over a list of user messages in order. -/
def runTurns (o : ModelOracle) (conv : ConvState) : List String → ConvState
  | [] => conv
  | t :: ts => runTurns o (handle_user_message o conv t).conv ts

/-- Scripted stand-in for the model (section 9): deterministic
classification and extraction covering the scripted dialogue of
section 8. -/
def scriptedOracle : ModelOracle :=
  { classify := fun st _ =>
      match st with
      | OState.IDLE => Intent.start_booking
      | OState.COLLECTING_BOOKING => Intent.continue_booking,
    extract := fun t =>
      if t = "I want to book a haircut for tomorrow at 3pm" then
        { booking_type := some "haircut", date := some "tomorrow", time := some "3pm" }
      else if t = "John Doe, john@example.com, 555-1234" then
        { name := some "John Doe", email := some "john@example.com", phone := some "555-1234" }
      else if t = "my email is not-an-email" then
        { email := some "not-an-email" }
      else emptySlots,
    askReply := fun _ => "Here is what I found in your documents.",
    confirmReply := fun _ => "Your booking is confirmed.",
    dateParseable := fun v => !v.isEmpty,
    timeParseable := fun v => !v.isEmpty }

/-- Modelled from the spec: a Chunk of the Chunk Store (section 3); the
rag_pipeline module is not in the source tree. -/
structure Chunk where
  id : Nat
  source_document : String
  sequence_index : Nat
  text : String
  embedding : List Int
deriving DecidableEq, Repr

/-- Modelled from the spec: the per-document ingestion error kind
(section 7). -/
structure IngestionError where
  message : String
deriving DecidableEq, Repr

/-- Tests whether a chunk with the given (source_document,
sequence_index) key already exists in the store. -/
def hasKey (store : List Chunk) (dn : String) (i : Nat) : Bool :=
  store.any (fun c => c.source_document = dn && c.sequence_index = i)

/-- Pairs each element with its position, starting at a base index. -/
def enumFrom {α : Type} (i : Nat) : List α → List (Nat × α)
  | [] => []
  | w :: ws => (i, w) :: enumFrom (i + 1) ws

/-- Modelled from the spec: embed each window of a document with the
external embedding capability; the whole document fails with an
IngestionError when the capability fails (section 4.1). -/
def embedChunks (embed : String → Except String (List Int)) (dn : String) :
    List (Nat × String) → Except IngestionError (List Chunk)
  | [] => Except.ok []
  | (i, w) :: rest =>
      match embed w with
      | Except.error e => Except.error ⟨e⟩
      | Except.ok v =>
          match embedChunks embed dn rest with
          | Except.error e => Except.error e
          | Except.ok cs =>
              Except.ok ({ id := 0, source_document := dn, sequence_index := i,
                           text := w, embedding := v } :: cs)

/-- Assigns fresh unique ids to newly created chunks, continuing after
the ids already allocated in the store. -/
def assignIds (base : Nat) (cs : List Chunk) : List Chunk :=
  (enumFrom 0 cs).map (fun p => { p.2 with id := base + p.1 })

/-- Modelled from the spec: ingest one document (section 4.1) — split it
into windows, skip every window whose (source_document, sequence_index)
key already exists in the store, embed the remaining windows, and append
the new chunks, returning the count added.  An embedding failure fails
this document with an IngestionError and leaves the store unchanged. -/
def ingestDoc (split : String → List String) (embed : String → Except String (List Int))
    (dn content : String) (store : List Chunk) : Except IngestionError (List Chunk × Nat) :=
  let windows := enumFrom 0 (split content)
  let missing := windows.filter (fun p => !hasKey store dn p.1)
  match embedChunks embed dn missing with
  | Except.error e => Except.error e
  | Except.ok cs => Except.ok (store ++ assignIds store.length cs, cs.length)

/-- Modelled from the spec: ingest a batch of uploaded documents with a
per-document result (section 4.1) — a failed document is reported with
its own IngestionError and does not abort the rest of the batch. -/
def ingestBatch (split : String → List String) (embed : String → Except String (List Int)) :
    List (String × String) → List Chunk → List Chunk × List (String × Except IngestionError Nat)
  | [], store => (store, [])
  | (dn, c) :: rest, store =>
      match ingestDoc split embed dn c store with
      | Except.ok (st2, n) =>
          let r := ingestBatch split embed rest st2
          (r.1, (dn, Except.ok n) :: r.2)
      | Except.error e =>
          let r := ingestBatch split embed rest store
          (r.1, (dn, Except.error e) :: r.2)

/-- Similarity score of two embeddings (section 4.2 allows cosine
similarity or equivalent; the model uses the inner product). -/
def similarity : List Int → List Int → Int
  | [], _ => 0
  | _, [] => 0
  | a :: as, b :: bs => a * b + similarity as bs

/-- Inserts a chunk into an already ranked list of chunks that come
later in ingestion order, keeping the ranking descending and breaking
ties by ingestion order (section 4.2). -/
def insertRanked (qv : List Int) (c : Chunk) : List Chunk → List Chunk
  | [] => [c]
  | d :: ds =>
      if similarity qv c.embedding ≥ similarity qv d.embedding then c :: d :: ds
      else d :: insertRanked qv c ds

def rankChunks (qv : List Int) : List Chunk → List Chunk
  | [] => []
  | c :: cs => insertRanked qv c (rankChunks qv cs)

/-- Modelled from the spec: retrieve the top-k chunks for a query
(section 4.2).  An empty Chunk Store is a normal state: the empty
sequence is returned without consulting the embedding capability. -/
def retrieve (embed : String → Except String (List Int)) (store : List Chunk)
    (query : String) (k : Nat) : Except String (List Chunk) :=
  match store with
  | [] => Except.ok []
  | _ :: _ =>
      match embed query with
      | Except.error e => Except.error e
      | Except.ok qv => Except.ok ((rankChunks qv store).take k)

/-- Every effect of the sidebar phase is an ingestion call. -/
theorem ingestPhase_effects (ir : Option (Except String Nat)) (st : List StatusItem) :
    ∀ e ∈ (ingestPhase ir st).1, e = UIEffect.ingestCall := by
  intro e he
  cases ir with
  | none => simp [ingestPhase] at he
  | some r =>
      cases r with
      | ok n => simpa [ingestPhase] using he
      | error s => simpa [ingestPhase] using he

/-- With empty chat input the chat page only performs the sidebar phase
and returns. -/
theorem chat_page_empty {σ : Type} (handle : String → σ → TurnOut σ)
    (persistTool : BookingRecord → PersistResult)
    (emailTool : String → String → String → EmailResult)
    (ir : Option (Except String Nat)) (ut : Option String)
    (st : List StatusItem) (conv : σ) (h : isEmptyInput ut = true) :
    chat_page handle persistTool emailTool ir ut st conv =
      { effects := (ingestPhase ir st).1, status := (ingestPhase ir st).2,
        conv := conv, rerun := false } := by
  cases ut with
  | none => rfl
  | some t =>
      simp only [isEmptyInput] at h
      simp [chat_page, h]

/-- C7: for every query text and every k, calling retrieve on an empty
Chunk Store returns the empty sequence and no error. -/
theorem retrieve_empty_store (embed : String → Except String (List Int))
    (query : String) (k : Nat) : retrieve embed [] query k = Except.ok [] := rfl

/-- C10: after every push_status call the status list holds exactly the
most recent entries, at most ten of them (it is a suffix of the pushed
sequence of the stated length), and render_status_messages renders only
entries with a non-empty message text. -/
theorem status_messages_bounded :
    (∀ (msgs : List StatusItem) (level msg : String),
        (push_status msgs level msg).length = min (msgs.length + 1) 10 ∧
        List.IsSuffix (push_status msgs level msg) (msgs ++ [⟨level, msg⟩])) ∧
    (∀ (s : List StatusItem) (p : Widget × String),
        p ∈ render_status_messages s → p.2 ≠ "") := by
  constructor
  · intro msgs level msg
    constructor
    · simp [push_status, takeLast]
      omega
    · exact List.drop_suffix _ _
  · intro s
    induction s with
    | nil => intro p hp; simp [render_status_messages] at hp
    | cons i rest ih =>
        intro p hp
        by_cases hm : i.message.isEmpty
        · simp [render_status_messages, hm] at hp
          exact ih p hp
        · simp [render_status_messages, hm] at hp
          rcases hp with hp | hp
          · subst hp
            simp only [ne_eq]
            intro hc
            rw [hc] at hm
            simp [String.isEmpty] at hm
          · exact ih p hp

/-- C10 witness. -/
theorem status_messages_bounded_witness :
    (push_status [⟨"info", "a"⟩] "success" "b").length = min 2 10 ∧
    List.IsSuffix (push_status [⟨"info", "a"⟩] "success" "b")
      ([⟨"info", "a"⟩] ++ [⟨"success", "b"⟩]) ∧
    ((⟨Widget.info, "x"⟩ : Widget × String) ∈
        render_status_messages [⟨"info", "x"⟩, ⟨"info", ""⟩] ∧
      ("x" : String) ≠ "") := by
  refine ⟨(status_messages_bounded.1 [⟨"info", "a"⟩] "success" "b").1,
    (status_messages_bounded.1 [⟨"info", "a"⟩] "success" "b").2, ?_, ?_⟩
  · decide
  · exact status_messages_bounded.2 [⟨"info", "x"⟩, ⟨"info", ""⟩] ⟨Widget.info, "x"⟩ (by decide)


theorem mergeField_none_left (valid : String → Bool) (x : Option String) :
    mergeField valid none x = x := by
  cases x <;> rfl

theorem mergeSlots_empty (o : ModelOracle) (e : BookingSlots) :
    mergeSlots o emptySlots e = e := by
  cases e
  simp [mergeSlots, emptySlots, mergeField_none_left]

/-- A turn that emits a completed booking clears the pending slots and
returns the state machine to IDLE. -/
theorem handle_completed_post (o : ModelOracle) (conv : ConvState) (text : String)
    (r : BookingRecord) (h : (handle_user_message o conv text).completed = some r) :
    (handle_user_message o conv text).conv.pending_booking = none ∧
    (handle_user_message o conv text).conv.ostate = OState.IDLE := by
  unfold handle_user_message at h ⊢
  cases hc : o.classify conv.ostate text <;> simp only [hc] at h ⊢
  · unfold continueBooking at h ⊢
    dsimp only at h ⊢
    split at h
    · split at h
      · simp at h
      · simp_all
    · simp at h
  · unfold continueBooking at h ⊢
    dsimp only at h ⊢
    split at h
    · split at h
      · simp at h
      · simp_all
    · simp at h
  · simp at h

/-- A turn whose extracted slot values are not by themselves a complete
slot set cannot emit a booking from a state with no pending slots. -/
theorem handle_no_pending_no_emit (o : ModelOracle) (conv : ConvState) (text : String)
    (hp : conv.pending_booking = none)
    (hs : slotsComplete (o.extract text) = false) :
    (handle_user_message o conv text).completed = none := by
  unfold handle_user_message
  cases hc : o.classify conv.ostate text <;> simp only [hc]
  · unfold continueBooking
    dsimp only
    rw [mergeSlots_empty, hs]
    simp
  · unfold continueBooking
    dsimp only
    simp only [hp, Option.getD_none]
    rw [mergeSlots_empty, hs]
    simp

theorem persistCount_ingestPhase (ir : Option (Except String Nat)) (st : List StatusItem) :
    persistCount (ingestPhase ir st).1 = 0 := by
  cases ir with
  | none => rfl
  | some r => cases r <;> rfl

theorem persistCount_append (a b : List UIEffect) :
    persistCount (a ++ b) = persistCount a + persistCount b :=
  List.countP_append _ _ _

/-- The chat page calls the persistence collaborator at most once per
render pass. -/
theorem chat_page_persist_le_one {σ : Type} (handle : String → σ → TurnOut σ)
    (persistTool : BookingRecord → PersistResult)
    (emailTool : String → String → String → EmailResult)
    (ir : Option (Except String Nat)) (ut : Option String)
    (st : List StatusItem) (conv : σ) :
    persistCount (chat_page handle persistTool emailTool ir ut st conv).effects ≤ 1 := by
  unfold chat_page
  dsimp only
  split
  · rw [persistCount_ingestPhase]
    simp
  · split
    · rw [persistCount_ingestPhase]
      simp
    · split
      · rw [persistCount_append, persistCount_ingestPhase]
        simp [persistCount, List.countP_cons, List.countP_nil]
      · split
        · rw [persistCount_append, persistCount_ingestPhase]
          simp [persistCount, List.countP_cons, List.countP_nil]
        · rw [persistCount_append, persistCount_ingestPhase]
          simp [persistCount, List.countP_cons, List.countP_nil]

def sampleRecord : BookingRecord :=
  { name := "John Doe", email := "john@example.com", phone := "555-1234",
    booking_type := "haircut", date := "tomorrow", time := "3pm" }

def wHandleNone : String → Unit → TurnOut Unit :=
  fun _ s => { reply := "ok", payload := none, state := s }

def wHandleBook : String → Unit → TurnOut Unit :=
  fun _ s => { reply := "confirmed", payload := some sampleRecord, state := s }

def wPersistOk : BookingRecord → PersistResult :=
  fun _ => { success := true, booking_id := 7 }

def wPersistFail : BookingRecord → PersistResult :=
  fun _ => { success := false, booking_id := 0 }

def wEmailOk : String → String → String → EmailResult := fun _ _ _ => { success := true }

def wEmailFail : String → String → String → EmailResult := fun _ _ _ => { success := false }

/-- C1: the persistence collaborator is invoked at most once per render
pass and not at all on the forced rerun (whose chat input is empty), and
a turn that emits a completed booking clears the pending BookingSlots
and returns to IDLE, so re-invoking the turn handler without new
slot-completing input never emits a second booking for that slots
instance. -/
theorem idempotent_emission_guard :
    (∀ (σ : Type) (handle : String → σ → TurnOut σ)
        (persistTool : BookingRecord → PersistResult)
        (emailTool : String → String → String → EmailResult)
        (ir : Option (Except String Nat)) (ut : Option String)
        (st : List StatusItem) (conv : σ), isEmptyInput ut = true →
        persistCount (chat_page handle persistTool emailTool ir ut st conv).effects = 0) ∧
    (∀ (σ : Type) (handle : String → σ → TurnOut σ)
        (persistTool : BookingRecord → PersistResult)
        (emailTool : String → String → String → EmailResult)
        (ir : Option (Except String Nat)) (ut : Option String)
        (st : List StatusItem) (conv : σ),
        persistCount (chat_page handle persistTool emailTool ir ut st conv).effects ≤ 1) ∧
    (∀ (o : ModelOracle) (conv : ConvState) (text : String) (r : BookingRecord),
        (handle_user_message o conv text).completed = some r →
        (handle_user_message o conv text).conv.pending_booking = none ∧
        (handle_user_message o conv text).conv.ostate = OState.IDLE ∧
        (∀ text2 : String, slotsComplete (o.extract text2) = false →
          (handle_user_message o (handle_user_message o conv text).conv text2).completed =
            none)) := by
  refine ⟨?_, ?_, ?_⟩
  · intro σ handle pt et ir ut st conv h
    rw [chat_page_empty handle pt et ir ut st conv h]
    exact persistCount_ingestPhase ir st
  · intro σ handle pt et ir ut st conv
    exact chat_page_persist_le_one handle pt et ir ut st conv
  · intro o conv text r h
    obtain ⟨h1, h2⟩ := handle_completed_post o conv text r h
    exact ⟨h1, h2, fun text2 hs => handle_no_pending_no_emit o _ text2 h1 hs⟩

/-- C1 witness. -/
theorem idempotent_emission_guard_witness :
    isEmptyInput (some "") = true ∧
    persistCount (chat_page wHandleBook wPersistOk wEmailFail none (some "") [] ()).effects = 0 ∧
    persistCount (chat_page wHandleBook wPersistOk wEmailFail none (some "hi") [] ()).effects ≤ 1 ∧
    (handle_user_message scriptedOracle
        (handle_user_message scriptedOracle initialConv
          "I want to book a haircut for tomorrow at 3pm").conv
        "John Doe, john@example.com, 555-1234").completed = some sampleRecord ∧
    slotsComplete (scriptedOracle.extract "thanks") = false ∧
    (handle_user_message scriptedOracle
        (handle_user_message scriptedOracle
          (handle_user_message scriptedOracle initialConv
            "I want to book a haircut for tomorrow at 3pm").conv
          "John Doe, john@example.com, 555-1234").conv
        "thanks").completed = none := by
  refine ⟨rfl, ?_, ?_, by decide, by decide, ?_⟩
  · exact idempotent_emission_guard.1 Unit wHandleBook wPersistOk wEmailFail none (some "") [] () rfl
  · exact idempotent_emission_guard.2.1 Unit wHandleBook wPersistOk wEmailFail none (some "hi") [] ()
  · exact (idempotent_emission_guard.2.2 scriptedOracle
      (handle_user_message scriptedOracle initialConv
        "I want to book a haircut for tomorrow at 3pm").conv
      "John Doe, john@example.com, 555-1234" sampleRecord (by decide)).2.2 "thanks" (by decide)

/-- C9: on a render pass with empty chat input (the forced rerun after a
booking included) the chat page neither invokes the turn handler nor
calls the persistence or notification collaborator, the conversation
state is unchanged and no further rerun is forced. -/
theorem empty_input_no_side_effects {σ : Type} (handle : String → σ → TurnOut σ)
    (persistTool : BookingRecord → PersistResult)
    (emailTool : String → String → String → EmailResult)
    (ir : Option (Except String Nat)) (ut : Option String)
    (st : List StatusItem) (conv : σ) (h : isEmptyInput ut = true) :
    (∀ t, UIEffect.handleCall t ∉
        (chat_page handle persistTool emailTool ir ut st conv).effects) ∧
    (∀ b, UIEffect.persistCall b ∉
        (chat_page handle persistTool emailTool ir ut st conv).effects) ∧
    (∀ a s bd, UIEffect.emailCall a s bd ∉
        (chat_page handle persistTool emailTool ir ut st conv).effects) ∧
    (chat_page handle persistTool emailTool ir ut st conv).conv = conv ∧
    (chat_page handle persistTool emailTool ir ut st conv).rerun = false := by
  rw [chat_page_empty handle persistTool emailTool ir ut st conv h]
  refine ⟨?_, ?_, ?_, rfl, rfl⟩
  · intro t hm
    exact UIEffect.noConfusion (ingestPhase_effects ir st _ hm)
  · intro b hm
    exact UIEffect.noConfusion (ingestPhase_effects ir st _ hm)
  · intro a s bd hm
    exact UIEffect.noConfusion (ingestPhase_effects ir st _ hm)

/-- C9 witness. -/
theorem empty_input_no_side_effects_witness :
    isEmptyInput (none : Option String) = true ∧
    UIEffect.handleCall "x" ∉
      (chat_page wHandleBook wPersistOk wEmailOk none none [] ()).effects ∧
    UIEffect.persistCall sampleRecord ∉
      (chat_page wHandleBook wPersistOk wEmailOk none none [] ()).effects ∧
    UIEffect.emailCall "a" "b" "c" ∉
      (chat_page wHandleBook wPersistOk wEmailOk none none [] ()).effects ∧
    (chat_page wHandleBook wPersistOk wEmailOk none none [] ()).conv = () ∧
    (chat_page wHandleBook wPersistOk wEmailOk none none [] ()).rerun = false := by
  have h := empty_input_no_side_effects wHandleBook wPersistOk wEmailOk none none [] () rfl
  exact ⟨rfl, h.1 "x", h.2.1 sampleRecord, h.2.2.1 "a" "b" "c", h.2.2.2.1, h.2.2.2.2⟩

/-- The entry just pushed is always present after push_status. -/
theorem mem_push_status_self (msgs : List StatusItem) (level msg : String) :
    (⟨level, msg⟩ : StatusItem) ∈ push_status msgs level msg := by
  unfold push_status takeLast
  have hk : (msgs ++ [(⟨level, msg⟩ : StatusItem)]).length - 10 ≤ msgs.length := by
    simp only [List.length_append, List.length_singleton]
    omega
  rw [List.drop_append_of_le_length hk]
  simp

/-- Case analysis of the effect trace of one chat-page render pass. -/
theorem chat_page_effects_cases {σ : Type} (handle : String → σ → TurnOut σ)
    (pt : BookingRecord → PersistResult)
    (et : String → String → String → EmailResult)
    (ir : Option (Except String Nat)) (ut : Option String)
    (st : List StatusItem) (conv : σ) :
    (chat_page handle pt et ir ut st conv).effects = (ingestPhase ir st).1 ∨
    (∃ t, ut = some t ∧
      (chat_page handle pt et ir ut st conv).effects =
        (ingestPhase ir st).1 ++ [UIEffect.handleCall t]) ∨
    (∃ t b, ut = some t ∧ (handle t conv).payload = some b ∧ (pt b).success = false ∧
      (chat_page handle pt et ir ut st conv).effects =
        (ingestPhase ir st).1 ++ [UIEffect.handleCall t, UIEffect.persistCall b]) ∨
    (∃ t b, ut = some t ∧ (handle t conv).payload = some b ∧ (pt b).success = true ∧
      (chat_page handle pt et ir ut st conv).effects =
        (ingestPhase ir st).1 ++ [UIEffect.handleCall t, UIEffect.persistCall b,
          UIEffect.emailCall b.email (bookingSubject (pt b).booking_id) (bookingBody b)]) := by
  unfold chat_page
  dsimp only
  split
  · left; rfl
  · split
    · left; rfl
    · split
      · next heqb =>
          right; left
          exact ⟨_, rfl, rfl⟩
      · next b heqb =>
          split
          · next hsucc =>
              right; right; right
              exact ⟨_, b, rfl, heqb, hsucc, rfl⟩
          · next hsucc =>
              right; right; left
              exact ⟨_, b, rfl, heqb, by simpa using hsucc, rfl⟩

/-- C2: the notification collaborator is called only in runs where the
persistence collaborator already returned success for the same booking
(the persist call precedes the email call in the effect trace and the
recipient is the booking email), and a notification failure after a
successful persistence only pushes a warning: the trace still ends with
the single persist call followed by the email call, with no further
persistence activity to undo or retry it. -/
theorem email_only_after_persist_success :
    (∀ (σ : Type) (handle : String → σ → TurnOut σ)
        (persistTool : BookingRecord → PersistResult)
        (emailTool : String → String → String → EmailResult)
        (ir : Option (Except String Nat)) (ut : Option String)
        (st : List StatusItem) (conv : σ) (a s bd : String),
        UIEffect.emailCall a s bd ∈
            (chat_page handle persistTool emailTool ir ut st conv).effects →
        ∃ b l1 l2,
          (chat_page handle persistTool emailTool ir ut st conv).effects =
              l1 ++ UIEffect.persistCall b :: l2 ∧
          UIEffect.emailCall a s bd ∈ l2 ∧
          (persistTool b).success = true ∧ a = b.email) ∧
    (∀ (σ : Type) (handle : String → σ → TurnOut σ)
        (persistTool : BookingRecord → PersistResult)
        (emailTool : String → String → String → EmailResult)
        (ir : Option (Except String Nat)) (t : String)
        (st : List StatusItem) (conv : σ) (b : BookingRecord),
        t.isEmpty = false →
        (handle t conv).payload = some b →
        (persistTool b).success = true →
        (emailTool b.email (bookingSubject (persistTool b).booking_id)
            (bookingBody b)).success = false →
        (⟨"warning", "Booking saved but email failed."⟩ : StatusItem) ∈
            (chat_page handle persistTool emailTool ir (some t) st conv).status ∧
        ∃ pre,
          (chat_page handle persistTool emailTool ir (some t) st conv).effects =
              pre ++ [UIEffect.handleCall t, UIEffect.persistCall b,
                UIEffect.emailCall b.email (bookingSubject (persistTool b).booking_id)
                  (bookingBody b)] ∧
          ∀ x ∈ pre, x = UIEffect.ingestCall) := by
  constructor
  · intro σ handle pt et ir ut st conv a s bd hm
    rcases chat_page_effects_cases handle pt et ir ut st conv with
      hc | ⟨t, hut, hc⟩ | ⟨t, b, hut, hp, hsucc, hc⟩ | ⟨t, b, hut, hp, hsucc, hc⟩
    · rw [hc] at hm
      exact absurd (ingestPhase_effects ir st _ hm) (by simp)
    · rw [hc] at hm
      rcases List.mem_append.mp hm with h1 | h1
      · exact absurd (ingestPhase_effects ir st _ h1) (by simp)
      · simp at h1
    · rw [hc] at hm
      rcases List.mem_append.mp hm with h1 | h1
      · exact absurd (ingestPhase_effects ir st _ h1) (by simp)
      · simp at h1
    · rw [hc] at hm
      rcases List.mem_append.mp hm with h1 | h1
      · exact absurd (ingestPhase_effects ir st _ h1) (by simp)
      · simp only [List.mem_cons, List.not_mem_nil, or_false] at h1
        rcases h1 with h1 | h1 | h1
        · exact absurd h1 (by simp)
        · exact absurd h1 (by simp)
        · obtain ⟨ha, hs, hbd⟩ := UIEffect.emailCall.inj h1
          refine ⟨b, (ingestPhase ir st).1 ++ [UIEffect.handleCall t],
            [UIEffect.emailCall b.email
              (bookingSubject (pt b).booking_id) (bookingBody b)],
            by rw [hc]; simp, ?_, hsucc, ha⟩
          rw [ha, hs, hbd]
          simp
  · intro σ handle pt et ir t st conv b ht hp hsucc hfail
    unfold chat_page
    dsimp only
    simp only [ht, Bool.false_eq_true, if_false, hp, hsucc, if_true, hfail]
    refine ⟨mem_push_status_self _ "warning" "Booking saved but email failed.", ?_⟩
    exact ⟨(ingestPhase ir st).1, rfl, ingestPhase_effects ir st⟩

/-- C2 witness. -/
theorem email_only_after_persist_success_witness :
    (UIEffect.emailCall sampleRecord.email (bookingSubject 7) (bookingBody sampleRecord) ∈
        (chat_page wHandleBook wPersistOk wEmailOk none (some "book") [] ()).effects ∧
      ∃ b l1 l2,
        (chat_page wHandleBook wPersistOk wEmailOk none (some "book") [] ()).effects =
            l1 ++ UIEffect.persistCall b :: l2 ∧
        UIEffect.emailCall sampleRecord.email (bookingSubject 7) (bookingBody sampleRecord) ∈ l2 ∧
        (wPersistOk b).success = true ∧ sampleRecord.email = b.email) ∧
    ("book".isEmpty = false ∧
      (wHandleBook "book" ()).payload = some sampleRecord ∧
      (wPersistOk sampleRecord).success = true ∧
      (wEmailFail sampleRecord.email (bookingSubject (wPersistOk sampleRecord).booking_id)
          (bookingBody sampleRecord)).success = false ∧
      (⟨"warning", "Booking saved but email failed."⟩ : StatusItem) ∈
          (chat_page wHandleBook wPersistOk wEmailFail none (some "book") [] ()).status ∧
      ∃ pre,
        (chat_page wHandleBook wPersistOk wEmailFail none (some "book") [] ()).effects =
            pre ++ [UIEffect.handleCall "book", UIEffect.persistCall sampleRecord,
              UIEffect.emailCall sampleRecord.email
                (bookingSubject (wPersistOk sampleRecord).booking_id)
                (bookingBody sampleRecord)] ∧
        ∀ x ∈ pre, x = UIEffect.ingestCall) := by
  have h1m : UIEffect.emailCall sampleRecord.email (bookingSubject 7) (bookingBody sampleRecord) ∈
      (chat_page wHandleBook wPersistOk wEmailOk none (some "book") [] ()).effects := by decide
  have h2 := email_only_after_persist_success.2 Unit wHandleBook wPersistOk wEmailFail none
    "book" [] () sampleRecord (by decide) rfl rfl rfl
  exact ⟨⟨h1m, email_only_after_persist_success.1 Unit wHandleBook wPersistOk wEmailOk none
    (some "book") [] () _ _ _ h1m⟩, by decide, rfl, rfl, rfl, h2.1, h2.2⟩

/-- A validated slot set passes every field-level check. -/
theorem firstInvalidField_none_valid (o : ModelOracle) (b : BookingSlots)
    (h : firstInvalidField o b = none) :
    optValid validName b.name = true ∧ optValid validEmailShape b.email = true ∧
    optValid validPhone b.phone = true ∧ optValid validBookingType b.booking_type = true ∧
    optValid (validDate o) b.date = true ∧ optValid (validTime o) b.time = true := by
  unfold firstInvalidField at h
  split at h
  · simp at h
  · next h1 =>
      split at h
      · simp at h
      · next h2 =>
          split at h
          · simp at h
          · next h3 =>
              split at h
              · simp at h
              · next h4 =>
                  split at h
                  · simp at h
                  · next h5 =>
                      split at h
                      · simp at h
                      · next h6 =>
                          exact ⟨by simpa using h1, by simpa using h2, by simpa using h3,
                            by simpa using h4, by simpa using h5, by simpa using h6⟩

/-- An emitted BookingRecord is the frozen form of a slot set that
passed validation. -/
theorem handle_completed_record (o : ModelOracle) (conv : ConvState) (text : String)
    (r : BookingRecord) (h : (handle_user_message o conv text).completed = some r) :
    ∃ merged, firstInvalidField o merged = none ∧ r = freezeSlots merged := by
  unfold handle_user_message at h
  cases hc : o.classify conv.ostate text <;> simp only [hc] at h
  · unfold continueBooking at h
    dsimp only at h
    split at h
    · split at h
      · simp at h
      · next heq =>
          simp only at h
          exact ⟨_, heq, by simpa using h.symm⟩
    · simp at h
  · unfold continueBooking at h
    dsimp only at h
    split at h
    · split at h
      · simp at h
      · next heq =>
          simp only at h
          exact ⟨_, heq, by simpa using h.symm⟩
    · simp at h
  · simp at h

theorem optValid_getD (valid : String → Bool) (x : Option String)
    (h : optValid valid x = true) : valid (x.getD "") = true := by
  cases x with
  | none => simp [optValid] at h
  | some v => simpa [optValid] using h

theorem nonempty_of_not_isEmpty {v : String} (h : (!v.isEmpty) = true) : v ≠ "" := by
  intro he
  subst he
  exact absurd h (by decide)

theorem nonempty_of_validEmail {v : String} (h : validEmailShape v = true) : v ≠ "" := by
  intro he
  subst he
  exact absurd h (by decide)

theorem nonempty_of_validDate (o : ModelOracle) {v : String}
    (h : validDate o v = true) : v ≠ "" := by
  intro he
  subst he
  simp [validDate] at h
  exact absurd h.1 (by decide)

theorem nonempty_of_validTime (o : ModelOracle) {v : String}
    (h : validTime o v = true) : v ≠ "" := by
  intro he
  subst he
  simp [validTime] at h
  exact absurd h.1 (by decide)

/-- C3: every BookingRecord returned as a non-none completed booking has
all six fields non-empty and passing field-level validation, and the
scripted booking dialogue of the spec completes with a record whose
email is john at example dot com. -/
theorem completed_booking_fields_valid :
    (∀ (o : ModelOracle) (conv : ConvState) (text : String) (r : BookingRecord),
        (handle_user_message o conv text).completed = some r →
        (validName r.name = true ∧ validEmailShape r.email = true ∧
          validPhone r.phone = true ∧ validBookingType r.booking_type = true ∧
          validDate o r.date = true ∧ validTime o r.time = true) ∧
        (r.name ≠ "" ∧ r.email ≠ "" ∧ r.phone ≠ "" ∧
          r.booking_type ≠ "" ∧ r.date ≠ "" ∧ r.time ≠ "")) ∧
    ((handle_user_message scriptedOracle
        (handle_user_message scriptedOracle initialConv
          "I want to book a haircut for tomorrow at 3pm").conv
        "John Doe, john@example.com, 555-1234").completed = some sampleRecord ∧
      sampleRecord.email = "john@example.com") := by
  constructor
  · intro o conv text r h
    obtain ⟨merged, hinv, hr⟩ := handle_completed_record o conv text r h
    obtain ⟨h1, h2, h3, h4, h5, h6⟩ := firstInvalidField_none_valid o merged hinv
    subst hr
    have e1 : validName (merged.name.getD "") = true := optValid_getD _ _ h1
    have e2 : validEmailShape (merged.email.getD "") = true := optValid_getD _ _ h2
    have e3 : validPhone (merged.phone.getD "") = true := optValid_getD _ _ h3
    have e4 : validBookingType (merged.booking_type.getD "") = true := optValid_getD _ _ h4
    have e5 : validDate o (merged.date.getD "") = true := optValid_getD _ _ h5
    have e6 : validTime o (merged.time.getD "") = true := optValid_getD _ _ h6
    refine ⟨⟨e1, e2, e3, e4, e5, e6⟩, ?_, ?_, ?_, ?_, ?_, ?_⟩
    · exact nonempty_of_not_isEmpty e1
    · exact nonempty_of_validEmail e2
    · exact nonempty_of_not_isEmpty e3
    · exact nonempty_of_not_isEmpty e4
    · exact nonempty_of_validDate o e5
    · exact nonempty_of_validTime o e6
  · exact ⟨by decide, rfl⟩

/-- C3 witness. -/
theorem completed_booking_fields_valid_witness :
    (handle_user_message scriptedOracle
        (handle_user_message scriptedOracle initialConv
          "I want to book a haircut for tomorrow at 3pm").conv
        "John Doe, john@example.com, 555-1234").completed = some sampleRecord ∧
    (validName sampleRecord.name = true ∧ validEmailShape sampleRecord.email = true ∧
      validPhone sampleRecord.phone = true ∧
      validBookingType sampleRecord.booking_type = true ∧
      validDate scriptedOracle sampleRecord.date = true ∧
      validTime scriptedOracle sampleRecord.time = true) ∧
    (sampleRecord.name ≠ "" ∧ sampleRecord.email ≠ "" ∧ sampleRecord.phone ≠ "" ∧
      sampleRecord.booking_type ≠ "" ∧ sampleRecord.date ≠ "" ∧ sampleRecord.time ≠ "") := by
  have h : (handle_user_message scriptedOracle
      (handle_user_message scriptedOracle initialConv
        "I want to book a haircut for tomorrow at 3pm").conv
      "John Doe, john@example.com, 555-1234").completed = some sampleRecord := by decide
  have hc := completed_booking_fields_valid.1 scriptedOracle
    (handle_user_message scriptedOracle initialConv
      "I want to book a haircut for tomorrow at 3pm").conv
    "John Doe, john@example.com, 555-1234" sampleRecord h
  exact ⟨h, hc.1, hc.2⟩

/-- C4: supplying an invalid email value during slot filling keeps the
Orchestrator in COLLECTING_BOOKING with no emission whenever the invalid
value lands in the email slot, never produces a BookingRecord carrying
the invalid value, never overwrites an already-valid email field, and
when the slot set is otherwise complete and valid the reply names the
email field as the invalid one. -/
theorem invalid_email_keeps_collecting (o : ModelOracle) (conv : ConvState)
    (text v : String) (cur : BookingSlots)
    (_hst : conv.ostate = OState.COLLECTING_BOOKING)
    (hpend : conv.pending_booking = some cur)
    (hcl : o.classify conv.ostate text = Intent.continue_booking)
    (hext : (o.extract text).email = some v)
    (hv : validEmailShape v = false) :
    (∀ r, (handle_user_message o conv text).completed = some r → r.email ≠ v) ∧
    ((mergeSlots o cur (o.extract text)).email = some v →
      (handle_user_message o conv text).completed = none ∧
      (handle_user_message o conv text).conv.ostate = OState.COLLECTING_BOOKING ∧
      (handle_user_message o conv text).conv.pending_booking =
        some (mergeSlots o cur (o.extract text))) ∧
    (∀ c, cur.email = some c → validEmailShape c = true →
      (mergeSlots o cur (o.extract text)).email = some c) ∧
    ((mergeSlots o cur (o.extract text)).email = some v →
      slotsComplete (mergeSlots o cur (o.extract text)) = true →
      optValid validName (mergeSlots o cur (o.extract text)).name = true →
      (handle_user_message o conv text).reply = invalidFieldReply "email") := by
  have hfst : (mergeSlots o cur (o.extract text)).email = some v →
      firstInvalidField o (mergeSlots o cur (o.extract text)) ≠ none := by
    intro hmv hn
    obtain ⟨_, h2, _⟩ := firstInvalidField_none_valid o _ hn
    rw [hmv] at h2
    simp only [optValid] at h2
    exact Bool.false_ne_true (hv.symm.trans h2)
  refine ⟨?_, ?_, ?_, ?_⟩
  · intro r hr heq
    obtain ⟨m2, hinv, hrfr⟩ := handle_completed_record o conv text r hr
    obtain ⟨_, h2, _⟩ := firstInvalidField_none_valid o m2 hinv
    have he2 : validEmailShape (freezeSlots m2).email = true := optValid_getD _ _ h2
    rw [← hrfr, heq] at he2
    exact Bool.false_ne_true (hv.symm.trans he2)
  · intro hmv
    unfold handle_user_message
    simp only [hcl]
    unfold continueBooking
    dsimp only
    simp only [hpend, Option.getD_some]
    split
    · cases hf : firstInvalidField o (mergeSlots o cur (o.extract text)) with
      | none => exact absurd hf (hfst hmv)
      | some f => simp [hf]
    · exact ⟨rfl, rfl, rfl⟩
  · intro c hc hvc
    simp [mergeSlots, mergeField, hc, hext, hvc, hv]
  · intro hmv hcomp hname
    have hf : firstInvalidField o (mergeSlots o cur (o.extract text)) = some "email" := by
      unfold firstInvalidField
      rw [hmv]
      simp only [hname, Bool.not_true, Bool.false_eq_true, if_false]
      simp only [optValid, hv, Bool.not_false, if_true]
    unfold handle_user_message
    simp only [hcl]
    unfold continueBooking
    dsimp only
    simp only [hpend, Option.getD_some, hcomp, if_true, hf]

def curSlots : BookingSlots :=
  { name := some "John Doe", email := none, phone := some "555-1234",
    booking_type := some "haircut", date := some "tomorrow", time := some "3pm" }

def collectingConv : ConvState :=
  { history := [], pending_booking := some curSlots, last_emitted_booking_id := none,
    ostate := OState.COLLECTING_BOOKING }

/-- C4 witness. -/
theorem invalid_email_keeps_collecting_witness :
    collectingConv.ostate = OState.COLLECTING_BOOKING ∧
    collectingConv.pending_booking = some curSlots ∧
    scriptedOracle.classify collectingConv.ostate "my email is not-an-email" =
      Intent.continue_booking ∧
    (scriptedOracle.extract "my email is not-an-email").email = some "not-an-email" ∧
    validEmailShape "not-an-email" = false ∧
    (mergeSlots scriptedOracle curSlots
        (scriptedOracle.extract "my email is not-an-email")).email = some "not-an-email" ∧
    (handle_user_message scriptedOracle collectingConv "my email is not-an-email").completed =
      none ∧
    (handle_user_message scriptedOracle collectingConv "my email is not-an-email").conv.ostate =
      OState.COLLECTING_BOOKING ∧
    (handle_user_message scriptedOracle collectingConv "my email is not-an-email").reply =
      invalidFieldReply "email" := by
  have h := invalid_email_keeps_collecting scriptedOracle collectingConv
    "my email is not-an-email" "not-an-email" curSlots rfl rfl rfl rfl (by decide)
  refine ⟨rfl, rfl, rfl, rfl, by decide, by decide, ?_, ?_, ?_⟩
  · exact (h.2.1 (by decide)).1
  · exact (h.2.1 (by decide)).2.1
  · exact h.2.2.2 (by decide) (by decide) (by decide)

/-- Pairs the user messages of the turns with the assistant replies, in
chronological order. -/
def interleave : List String → List String → List Message
  | [], _ => []
  | _ :: _, [] => []
  | u :: us, r :: rs => ⟨Role.user, u⟩ :: ⟨Role.assistant, r⟩ :: interleave us rs

def countRole (r : Role) (l : List Message) : Nat :=
  l.countP (fun m => m.role == r)

/-- History shape check: user message, assistant reply, repeated. -/
def isUserAssistantPairs : List Message → Bool
  | [] => true
  | ⟨Role.user, _⟩ :: ⟨Role.assistant, _⟩ :: rest => isUserAssistantPairs rest
  | _ => false

/-- Every branch of handle_user_message appends exactly the user message
followed by the returned assistant reply to the history. -/
theorem handle_history_append (o : ModelOracle) (conv : ConvState) (text : String) :
    (handle_user_message o conv text).conv.history =
      conv.history ++ [⟨Role.user, text⟩,
        ⟨Role.assistant, (handle_user_message o conv text).reply⟩] := by
  unfold handle_user_message
  cases hc : o.classify conv.ostate text <;> simp only [hc]
  · unfold continueBooking
    dsimp only
    split
    · split
      · simp
      · simp
    · simp
  · unfold continueBooking
    dsimp only
    split
    · split
      · simp
      · simp
    · simp
  · simp

theorem runTurns_history (o : ModelOracle) (msgs : List String) : ∀ conv : ConvState,
    ∃ replies : List String, replies.length = msgs.length ∧
      (runTurns o conv msgs).history = conv.history ++ interleave msgs replies := by
  induction msgs with
  | nil =>
      intro conv
      exact ⟨[], rfl, by simp [runTurns, interleave]⟩
  | cons t ts ih =>
      intro conv
      obtain ⟨rs, hlen, hrs⟩ := ih (handle_user_message o conv t).conv
      refine ⟨(handle_user_message o conv t).reply :: rs, by simp [hlen], ?_⟩
      have hrun : runTurns o conv (t :: ts) =
          runTurns o (handle_user_message o conv t).conv ts := rfl
      rw [hrun, hrs, handle_history_append]
      simp [interleave]

theorem interleave_pairs (us : List String) : ∀ rs : List String,
    rs.length = us.length → isUserAssistantPairs (interleave us rs) = true := by
  induction us with
  | nil =>
      intro rs h
      cases rs with
      | nil => rfl
      | cons r rs => simp at h
  | cons u us ih =>
      intro rs h
      cases rs with
      | nil => simp at h
      | cons r rs =>
          simp only [List.length_cons] at h
          have := ih rs (by omega)
          simpa [interleave, isUserAssistantPairs] using this

theorem interleave_counts (us : List String) : ∀ rs : List String,
    rs.length = us.length →
    countRole Role.user (interleave us rs) = us.length ∧
    countRole Role.assistant (interleave us rs) = us.length := by
  induction us with
  | nil =>
      intro rs h
      cases rs with
      | nil => exact ⟨rfl, rfl⟩
      | cons r rs => simp at h
  | cons u us ih =>
      intro rs h
      cases rs with
      | nil => simp at h
      | cons r rs =>
          simp only [List.length_cons] at h
          obtain ⟨h1, h2⟩ := ih rs (by omega)
          constructor
          · simp [interleave, countRole, List.countP_cons] at h1 ⊢
            omega
          · simp [interleave, countRole, List.countP_cons] at h2 ⊢
            omega

/-- C8: after any N completed turns from a fresh conversation the
history is exactly the N user messages interleaved with the N assistant
replies: N user messages and N assistant messages, alternating in
chronological order, each user message followed by the reply returned
for it. -/
theorem history_alternation (o : ModelOracle) (msgs : List String) :
    ∃ replies : List String, replies.length = msgs.length ∧
      (runTurns o initialConv msgs).history = interleave msgs replies ∧
      isUserAssistantPairs ((runTurns o initialConv msgs).history) = true ∧
      countRole Role.user ((runTurns o initialConv msgs).history) = msgs.length ∧
      countRole Role.assistant ((runTurns o initialConv msgs).history) = msgs.length := by
  obtain ⟨replies, hlen, hh⟩ := runTurns_history o msgs initialConv
  have hh2 : (runTurns o initialConv msgs).history = interleave msgs replies := by
    simpa [initialConv] using hh
  obtain ⟨hc1, hc2⟩ := interleave_counts msgs replies hlen
  refine ⟨replies, hlen, hh2, ?_, ?_, ?_⟩
  · rw [hh2]
    exact interleave_pairs msgs replies hlen
  · rw [hh2]
    exact hc1
  · rw [hh2]
    exact hc2

theorem hasKey_append (s1 s2 : List Chunk) (dn : String) (i : Nat) :
    hasKey (s1 ++ s2) dn i = (hasKey s1 dn i || hasKey s2 dn i) := by
  simp [hasKey, List.any_append]

theorem hasKey_of_mem (s : List Chunk) (ch : Chunk) (hm : ch ∈ s)
    (hdn : ch.source_document = dn) (hi : ch.sequence_index = i) :
    hasKey s dn i = true := by
  unfold hasKey
  rw [List.any_eq_true]
  exact ⟨ch, hm, by simp [hdn, hi]⟩

theorem hasKey_assignIds (cs : List Chunk) (base : Nat) (dn : String) (k : Nat) :
    ∀ j : Nat,
      hasKey ((enumFrom j cs).map (fun p => { p.2 with id := base + p.1 })) dn k =
        hasKey cs dn k := by
  induction cs with
  | nil => intro j; rfl
  | cons c cs ih =>
      intro j
      simp only [enumFrom, List.map_cons, hasKey, List.any_cons] at ih ⊢
      rw [← ih (j + 1)]

theorem embedChunks_ok_mem (embed : String → Except String (List Int)) (dn : String) :
    ∀ (l : List (Nat × String)) (cs : List Chunk), embedChunks embed dn l = Except.ok cs →
      ∀ p ∈ l, ∃ ch ∈ cs, ch.source_document = dn ∧ ch.sequence_index = p.1 := by
  intro l
  induction l with
  | nil =>
      intro cs _ p hp
      simp at hp
  | cons q rest ih =>
      intro cs hcs p hp
      cases q with
      | mk i w =>
          unfold embedChunks at hcs
          cases he : embed w with
          | error e => rw [he] at hcs; simp at hcs
          | ok v =>
              rw [he] at hcs
              cases hr : embedChunks embed dn rest with
              | error e => rw [hr] at hcs; simp at hcs
              | ok cs0 =>
                  rw [hr] at hcs
                  simp only [Except.ok.injEq] at hcs
                  subst hcs
                  rcases List.mem_cons.mp hp with hp1 | hp1
                  · subst hp1
                    exact ⟨_, List.mem_cons_self _ _, rfl, rfl⟩
                  · obtain ⟨ch, hm, h1, h2⟩ := ih cs0 hr p hp1
                    exact ⟨ch, List.mem_cons_of_mem _ hm, h1, h2⟩

theorem enumFrom_length {α : Type} (l : List α) : ∀ i, (enumFrom i l).length = l.length := by
  induction l with
  | nil => intro i; rfl
  | cons a l ih => intro i; simp [enumFrom, ih]

theorem assignIds_length (base : Nat) (cs : List Chunk) :
    (assignIds base cs).length = cs.length := by
  simp [assignIds, enumFrom_length]

/-- C6: re-ingesting a document that was just ingested adds zero chunks
and leaves the Chunk Store unchanged, so ingesting twice yields the same
total chunk count as ingesting once (which adds exactly the reported
count). -/
theorem ingest_idempotent (split : String → List String)
    (embed : String → Except String (List Int)) (dn c : String)
    (store st2 : List Chunk) (n : Nat)
    (h : ingestDoc split embed dn c store = Except.ok (st2, n)) :
    ingestDoc split embed dn c st2 = Except.ok (st2, 0) ∧
    st2.length = store.length + n := by
  unfold ingestDoc at h ⊢
  dsimp only at h ⊢
  cases hcs : embedChunks embed dn
      ((enumFrom 0 (split c)).filter (fun p => !hasKey store dn p.1)) with
  | error e => rw [hcs] at h; simp at h
  | ok cs =>
      rw [hcs] at h
      simp only [Except.ok.injEq, Prod.mk.injEq] at h
      obtain ⟨hst, hn⟩ := h
      have hall : ∀ p ∈ enumFrom 0 (split c), hasKey st2 dn p.1 = true := by
        intro p hp
        by_cases hk : hasKey store dn p.1 = true
        · rw [← hst, hasKey_append, hk]
          rfl
        · have hpm : p ∈ (enumFrom 0 (split c)).filter (fun p => !hasKey store dn p.1) :=
            List.mem_filter.mpr ⟨hp, by simp [hk]⟩
          obtain ⟨ch, hm, h1, h2⟩ := embedChunks_ok_mem embed dn _ cs hcs p hpm
          have : hasKey (assignIds store.length cs) dn p.1 = true := by
            rw [assignIds, hasKey_assignIds cs store.length dn p.1 0]
            exact hasKey_of_mem cs ch hm h1 h2
          rw [← hst, hasKey_append, this]
          simp
      have hfil : (enumFrom 0 (split c)).filter (fun p => !hasKey st2 dn p.1) = [] := by
        rw [List.filter_eq_nil_iff]
        intro p hp
        simp [hall p hp]
      rw [hfil]
      constructor
      · simp [embedChunks, assignIds, enumFrom]
      · rw [← hst, ← hn]
        simp [assignIds_length]

def wSplit : String → List String := fun s => [s]

def wEmbed : String → Except String (List Int) := fun _ => Except.ok [1]

def wEmbedSel : String → Except String (List Int) :=
  fun t => if t = "bad" then Except.error "embedding capability unavailable" else Except.ok [1]

def wChunk : Chunk :=
  { id := 0, source_document := "doc", sequence_index := 0, text := "hello",
    embedding := [1] }

/-- C6 witness. -/
theorem ingest_idempotent_witness :
    ingestDoc wSplit wEmbed "doc" "hello" [] = Except.ok ([wChunk], 1) ∧
    ingestDoc wSplit wEmbed "doc" "hello" [wChunk] = Except.ok ([wChunk], 0) ∧
    ([wChunk] : List Chunk).length = ([] : List Chunk).length + 1 := by
  have h : ingestDoc wSplit wEmbed "doc" "hello" [] = Except.ok ([wChunk], 1) := by rfl
  have hc := ingest_idempotent wSplit wEmbed "doc" "hello" [] [wChunk] 1 h
  exact ⟨h, hc.1, hc.2⟩

theorem ingestBatch_cons_ok (split : String → List String)
    (embed : String → Except String (List Int)) (dn c : String)
    (rest : List (String × String)) (store st2 : List Chunk) (n : Nat)
    (hd : ingestDoc split embed dn c store = Except.ok (st2, n)) :
    ingestBatch split embed ((dn, c) :: rest) store =
      ((ingestBatch split embed rest st2).1,
        (dn, Except.ok n) :: (ingestBatch split embed rest st2).2) := by
  simp only [ingestBatch, hd]

theorem ingestBatch_cons_error (split : String → List String)
    (embed : String → Except String (List Int)) (dn c : String)
    (rest : List (String × String)) (store : List Chunk) (e : IngestionError)
    (hd : ingestDoc split embed dn c store = Except.error e) :
    ingestBatch split embed ((dn, c) :: rest) store =
      ((ingestBatch split embed rest store).1,
        (dn, Except.error e) :: (ingestBatch split embed rest store).2) := by
  simp only [ingestBatch, hd]

theorem ingestBatch_append (split : String → List String)
    (embed : String → Except String (List Int)) (ys xs : List (String × String)) :
    ∀ store : List Chunk,
      ingestBatch split embed (xs ++ ys) store =
        ((ingestBatch split embed ys (ingestBatch split embed xs store).1).1,
          (ingestBatch split embed xs store).2 ++
            (ingestBatch split embed ys (ingestBatch split embed xs store).1).2) := by
  induction xs with
  | nil =>
      intro store
      simp [ingestBatch]
  | cons d xs ih =>
      intro store
      cases d with
      | mk dn c =>
          rw [List.cons_append]
          cases hd : ingestDoc split embed dn c store with
          | ok r =>
              cases r with
              | mk st2 n =>
                  rw [ingestBatch_cons_ok split embed dn c (xs ++ ys) store st2 n hd,
                    ingestBatch_cons_ok split embed dn c xs store st2 n hd, ih st2]
                  simp
          | error e =>
              rw [ingestBatch_cons_error split embed dn c (xs ++ ys) store e hd,
                ingestBatch_cons_error split embed dn c xs store e hd, ih store]
              simp

/-- C5: a document whose ingestion fails is reported with its own
IngestionError in the per-document report of the batch, and the rest of
the batch is ingested exactly as if the failing document were absent:
the resulting Chunk Store equals the store of the batch without it, and
the report carries the error at the position of the failing document. -/
theorem ingestion_failure_per_document (split : String → List String)
    (embed : String → Except String (List Int)) (pre : List (String × String))
    (dnB cB : String) (post : List (String × String)) (store : List Chunk)
    (err : IngestionError)
    (h : ingestDoc split embed dnB cB (ingestBatch split embed pre store).1 =
      Except.error err) :
    (ingestBatch split embed (pre ++ (dnB, cB) :: post) store).1 =
      (ingestBatch split embed (pre ++ post) store).1 ∧
    (ingestBatch split embed (pre ++ (dnB, cB) :: post) store).2 =
      (ingestBatch split embed pre store).2 ++
        (dnB, Except.error err) ::
          (ingestBatch split embed post (ingestBatch split embed pre store).1).2 := by
  rw [ingestBatch_append split embed ((dnB, cB) :: post) pre store,
    ingestBatch_append split embed post pre store,
    ingestBatch_cons_error split embed dnB cB post (ingestBatch split embed pre store).1 err h]
  simp

/-- C5 witness. -/
theorem ingestion_failure_per_document_witness :
    ingestDoc wSplit wEmbedSel "b" "bad"
        (ingestBatch wSplit wEmbedSel [("a", "x")] []).1 =
      Except.error ⟨"embedding capability unavailable"⟩ ∧
    (ingestBatch wSplit wEmbedSel ([("a", "x")] ++ ("b", "bad") :: [("c", "y")]) []).1 =
      (ingestBatch wSplit wEmbedSel ([("a", "x")] ++ [("c", "y")]) []).1 ∧
    (ingestBatch wSplit wEmbedSel ([("a", "x")] ++ ("b", "bad") :: [("c", "y")]) []).2 =
      (ingestBatch wSplit wEmbedSel [("a", "x")] []).2 ++
        ("b", Except.error ⟨"embedding capability unavailable"⟩) ::
          (ingestBatch wSplit wEmbedSel [("c", "y")]
            (ingestBatch wSplit wEmbedSel [("a", "x")] []).1).2 := by
  have h : ingestDoc wSplit wEmbedSel "b" "bad"
      (ingestBatch wSplit wEmbedSel [("a", "x")] []).1 =
      Except.error ⟨"embedding capability unavailable"⟩ := by rfl
  have hc := ingestion_failure_per_document wSplit wEmbedSel [("a", "x")] "b" "bad"
    [("c", "y")] [] ⟨"embedding capability unavailable"⟩ h
  exact ⟨h, hc.1, hc.2⟩
